import Mathlib

/-!
Shallow embedding of the DeskCycle Raspberry Pi Pico game-controller firmware
(`src/code.py`).  The module-level mutable globals of the script become the
fields of `LoopState`; one iteration of the `while True:` loop becomes the
pure function `tick`.  Times and intervals are modelled as rationals, raw
hall-sensor readings as naturals, the `active_keys` set as a `Finset Key`,
and calls into the `adafruit_hid` keyboard object as an emitted `SinkCall`
list.  Python truthiness of `smoothed_min_timeout_interval` (initially the
literal `False`, later a positive float) is modelled by `Option ℚ` together
with `truthyQ`; truthiness of `last_activity` (a float) is the test `≠ 0`.
-/

/-- Logical keys used by the script: `Keycode.W` (forward), `Keycode.S`
(reverse) and `Keycode.SHIFT` (sprint). -/
inductive Key
  | W
  | S
  | SHIFT
deriving DecidableEq, Repr

/-- One call into the `Keyboard` output object (`keyboard.press`,
`keyboard.release`, `keyboard.release_all`). -/
inductive SinkCall
  | press (k : Key)
  | release (k : Key)
  | releaseAll
deriving DecidableEq, Repr

/-- Settings constants of `code.py` (lines 20-37). -/
structure Config where
  analog_threshold : ℕ
  min_timeout : ℚ
  max_timeout : ℚ
  stop_smoothing : ℕ
  stop_smoothing_scale : ℚ
  sprint_start : ℚ
  sprint_end : ℚ
  sprint_smoothing : ℕ
  disable_sprint : Bool

/-- Line 69: `max_history = max(stop_smoothing, sprint_smoothing) + 1`. -/
def Config.maxHistory (cfg : Config) : ℕ :=
  max cfg.stop_smoothing cfg.sprint_smoothing + 1

/-- The constant values assigned in `code.py` lines 24-37. -/
def defaultConfig : Config where
  analog_threshold := 34100
  min_timeout := 191/1000
  max_timeout := 38/100
  stop_smoothing := 4
  stop_smoothing_scale := 1/100
  sprint_start := 72/1000
  sprint_end := 12/100
  sprint_smoothing := 5
  disable_sprint := false

/-- The module-level mutable state of `code.py` that the loop reads and
writes (lines 21, 54-55, 65-82). -/
structure LoopState where
  button_state : Bool
  last_button : Bool
  disable_keyboard : Bool
  last_switch : Option ℕ
  interval_history : List ℚ
  last_activity : ℚ
  inactive_count : ℕ
  smoothed_min_timeout_interval : Option ℚ
  actions_ready : Bool
  active_keys : Finset Key
deriving DecidableEq

/-- One tick's worth of inputs read from the hardware: the two analog hall
readings, the enable/disable button level, and `time.monotonic()`. -/
structure TickInput where
  hall1 : ℕ
  hall2 : ℕ
  button : Bool
  ctime : ℚ
deriving DecidableEq

/-- Python truthiness of `smoothed_min_timeout_interval`: the literal
`False` (here `none`) and the float `0.0` are falsy, any other float is
truthy. -/
def truthyQ : Option ℚ → Bool
  | none => false
  | some x => if x = 0 then false else true

/-- Lines 177-194, `analog_bool`: a zero reading is falsy (`if not
sensor_value: return False`), otherwise compare against the threshold. -/
def analog_bool (cfg : Config) (sensor_value : ℕ) : Bool :=
  if sensor_value = 0 then false
  else decide (cfg.analog_threshold ≤ sensor_value)

/-- Lines 90-107, `press_key`: track the key only when it is new, but
always force the press on the sink (unless the keyboard is disabled). -/
def press_key (disable_keyboard : Bool) (keycode : Key) (active_keys : Finset Key) :
    Finset Key × List SinkCall :=
  let tracked := if keycode ∈ active_keys then active_keys else insert keycode active_keys
  (tracked, if disable_keyboard then [] else [SinkCall.press keycode])

/-- Lines 110-126, `release_key`: only when the key is tracked, discard it
and release it on the sink (unless the keyboard is disabled). -/
def release_key (disable_keyboard : Bool) (keycode : Key) (active_keys : Finset Key) :
    Finset Key × List SinkCall :=
  if keycode ∈ active_keys then
    (active_keys.erase keycode, if disable_keyboard then [] else [SinkCall.release keycode])
  else (active_keys, [])

/-- Lines 129-144, `release_all_keys`: `keyboard.release_all()` is issued
unconditionally, and the tracked set is cleared. -/
def release_all_keys (_active_keys : Finset Key) : Finset Key × List SinkCall :=
  (∅, [SinkCall.releaseAll])

/-- Consecutive differences, the translation of line 159:
`[items[i] - items[i - 1] for i in range(1, len(items))]`. -/
def consecDiffs : List ℚ → List ℚ
  | a :: b :: rest => (b - a) :: consecDiffs (b :: rest)
  | _ => []

/-- Lines 147-163, `get_interval_avg_sprint`.  The Python body reads the
module-level `interval_history` and mutates only the slice copy `items`
(`interval_history[-max_len:]` copies), so the pair returned here carries
the final value of `interval_history` (always unchanged) next to the
computed average.  Python's `l[-m:]` is the whole list when `m = 0` and the
last `m` elements otherwise; an empty history returns `0`. -/
def get_interval_avg_sprint (max_len : ℕ) (current_time : ℚ) (interval_history : List ℚ) :
    List ℚ × ℚ :=
  if interval_history.length ≠ 0 then
    let m := min max_len interval_history.length
    let items := if m = 0 then interval_history
      else interval_history.drop (interval_history.length - m)
    let items := items ++ [current_time]
    let intervals := consecDiffs items
    (interval_history, intervals.sum / intervals.length)
  else (interval_history, 0)

/-- Lines 166-174, `full_stop`: release all keys, clear the interval
history, reset the smoothed timeout to `False`. -/
def full_stop (s : LoopState) : LoopState × List SinkCall :=
  let ra := release_all_keys s.active_keys
  ({ s with active_keys := ra.1,
            interval_history := [],
            smoothed_min_timeout_interval := none }, ra.2)

/-- Lines 211-222: the enable/disable button edge detector.  On a
high-to-low edge it toggles `button_state` and sets `disable_keyboard`
accordingly. -/
def buttonBlock (button : Bool) (s : LoopState) : LoopState :=
  if button ≠ s.last_button then
    let s1 := { s with last_button := button }
    if button = false then
      let bs := !s1.button_state
      { s1 with button_state := bs, disable_keyboard := !bs }
    else s1
  else s

/-- Lines 228-231: the idle notice.  Besides printing, it moves
`last_activity` forward and bumps `inactive_count`. -/
def idleBlock (ctime : ℚ) (s : LoopState) : LoopState :=
  if s.last_activity ≠ 0 ∧ 5 < ctime - s.last_activity ∧ s.inactive_count ≤ 360 then
    { s with last_activity := ctime, inactive_count := s.inactive_count + 1 }
  else s

/-- Lines 256-263: on an action pass, the direction keys follow
`last_switch` (`2` means forward `W`, `1` means reverse `S`), always
releasing the opposite key before pressing the chosen one. -/
def directionKeys (disable_keyboard : Bool) (last_switch : Option ℕ) (active : Finset Key) :
    Finset Key × List SinkCall :=
  match last_switch with
  | some 2 =>
    let r := release_key disable_keyboard Key.S active
    let p := press_key disable_keyboard Key.W r.1
    (p.1, r.2 ++ p.2)
  | some 1 =>
    let r := release_key disable_keyboard Key.W active
    let p := press_key disable_keyboard Key.S r.1
    (p.1, r.2 ++ p.2)
  | _ => (active, [])

/-- Lines 279-287: the sprint decision.  Enter sprint when the aggregate is
at most `sprint_start`, leave it when the aggregate is at least
`sprint_end`, otherwise leave the SHIFT key as it is. -/
def sprintBlock (cfg : Config) (disable_keyboard : Bool) (interval_avg_sprint : ℚ)
    (active : Finset Key) : Finset Key × List SinkCall :=
  if cfg.disable_sprint = false then
    if interval_avg_sprint ≤ cfg.sprint_start then
      press_key disable_keyboard Key.SHIFT active
    else if cfg.sprint_end ≤ interval_avg_sprint then
      release_key disable_keyboard Key.SHIFT active
    else (active, [])
  else (active, [])

/-- Lines 292-314: update of `smoothed_min_timeout_interval`.  When it is
still falsy it is initialised to `max(interval_avg_stop, max_timeout)`;
otherwise, when the current aggregate is below it, it either decays by at
most `stop_smoothing_scale` toward the aggregate (aggregate at least
`min_timeout`) or is set directly to `min_timeout` (aggregate below it). -/
def updateSmoothed (cfg : Config) (smoothed : Option ℚ) (interval_avg_stop : ℚ) : Option ℚ :=
  if truthyQ smoothed = false then
    some (max interval_avg_stop cfg.max_timeout)
  else
    let v := smoothed.getD 0
    if interval_avg_stop < v then
      if cfg.min_timeout ≤ interval_avg_stop then
        some (max interval_avg_stop (v - cfg.stop_smoothing_scale))
      else some cfg.min_timeout
    else smoothed

/-- Lines 245-321: the action block run when `actions_ready` is set and
both sensors have gone inactive.  It presses/releases the direction keys
from `last_switch`, and — only when the interval history is non-empty —
computes the sprint and stop aggregates, updates the SHIFT key and the
smoothed timeout; finally it records `ctime` in the history and in
`last_activity`. -/
def actionBlock (cfg : Config) (ctime : ℚ) (s : LoopState) : LoopState × List SinkCall :=
  let s0 := { s with actions_ready := false, inactive_count := 1 }
  let dk := directionKeys s0.disable_keyboard s0.last_switch s0.active_keys
  let spd : Finset Key × List SinkCall × Option ℚ :=
    if s0.interval_history.length ≠ 0 then
      let interval_avg_sprint :=
        (get_interval_avg_sprint cfg.sprint_smoothing ctime s0.interval_history).2
      let sp := sprintBlock cfg s0.disable_keyboard interval_avg_sprint dk.1
      let interval_avg_stop :=
        (get_interval_avg_sprint cfg.stop_smoothing ctime s0.interval_history).2
      (sp.1, sp.2, updateSmoothed cfg s0.smoothed_min_timeout_interval interval_avg_stop)
    else (dk.1, [], s0.smoothed_min_timeout_interval)
  ({ s0 with active_keys := spd.1,
             smoothed_min_timeout_interval := spd.2.2,
             interval_history := s0.interval_history ++ [ctime],
             last_activity := ctime }, dk.2 ++ spd.2.1)

/-- Lines 323-333: the stop check run every tick.  `full_stop` is executed
when the stop condition holds and some key is tracked; the boolean output
records whether `full_stop` was called. -/
def stopBlock (cfg : Config) (ctime : ℚ) (s : LoopState) : LoopState × List SinkCall × Bool :=
  let stop_avg := (get_interval_avg_sprint cfg.stop_smoothing ctime s.interval_history).2
  if (truthyQ s.smoothed_min_timeout_interval = true ∧
        s.smoothed_min_timeout_interval.getD 0 < stop_avg)
      ∨ (s.last_activity ≠ 0 ∧ cfg.max_timeout < ctime - s.last_activity) then
    if s.active_keys ≠ ∅ then
      let fs := full_stop s
      (fs.1, fs.2, true)
    else (s, [], false)
  else (s, [], false)

/-- Lines 336-338: history pruning, Python `interval_history[-max_history:]`
applied only when the length exceeds `max_history`. -/
def pruneHistory (cfg : Config) (l : List ℚ) : List ℚ :=
  if cfg.maxHistory < l.length then l.drop (l.length - cfg.maxHistory) else l

/-- Convenience: the two thresholded switch readings of a tick input. -/
def switch1Of (cfg : Config) (inp : TickInput) : Bool := analog_bool cfg inp.hall1

/-- Convenience: second switch reading. -/
def switch2Of (cfg : Config) (inp : TickInput) : Bool := analog_bool cfg inp.hall2

/-- Line 207: `both_sw = switch1 and switch2`. -/
def bothOf (cfg : Config) (inp : TickInput) : Bool :=
  switch1Of cfg inp && switch2Of cfg inp

/-- Line 208: `either_sw = switch1 or switch2`. -/
def eitherOf (cfg : Config) (inp : TickInput) : Bool :=
  switch1Of cfg inp || switch2Of cfg inp

/-- Lines 203-237: the sensor-read phase of a pass.  After the button and
idle blocks, a single active switch records itself in `last_switch`
(line 235: `last_switch = 1 if switch1 else 2`). -/
def preActionState (cfg : Config) (inp : TickInput) (s : LoopState) : LoopState :=
  let s1 := buttonBlock inp.button s
  let s2 := idleBlock inp.ctime s1
  if eitherOf cfg inp && !bothOf cfg inp then
    { s2 with last_switch := some (if switch1Of cfg inp then 1 else 2) }
  else s2

/-- Lines 239-321: both switches active arm `actions_ready`; otherwise,
when armed and both switches have gone inactive, the action block runs. -/
def actionPhase (cfg : Config) (inp : TickInput) (s3 : LoopState) :
    LoopState × List SinkCall :=
  if bothOf cfg inp then ({ s3 with actions_ready := true }, [])
  else if s3.actions_ready && !eitherOf cfg inp then actionBlock cfg inp.ctime s3
  else (s3, [])

/-- Lines 203-333 before pruning: one pass of the `while True:` loop.  It
returns the new state, the keyboard calls issued this tick (action block
first, then stop check) and whether `full_stop` ran. -/
def tickPre (cfg : Config) (inp : TickInput) (s : LoopState) :
    LoopState × List SinkCall × Bool :=
  let s3 := preActionState cfg inp s
  let ac := actionPhase cfg inp s3
  let sb := stopBlock cfg inp.ctime ac.1
  (sb.1, ac.2 ++ sb.2.1, sb.2.2)

/-- One full pass of the loop including the final history pruning of lines
336-338. -/
def tick (cfg : Config) (inp : TickInput) (s : LoopState) :
    LoopState × List SinkCall × Bool :=
  let r := tickPre cfg inp s
  ({ r.1 with interval_history := pruneHistory cfg r.1.interval_history }, r.2.1, r.2.2)

/-- The module initialisation of lines 54-82: input enabled, no switch seen,
empty history, `last_activity` the boot clock value, no keys held. -/
def initState (button0 : Bool) (t0 : ℚ) : LoopState where
  button_state := true
  last_button := button0
  disable_keyboard := false
  last_switch := none
  interval_history := []
  last_activity := t0
  inactive_count := 1
  smoothed_min_timeout_interval := none
  actions_ready := false
  active_keys := ∅

/-- Iterate the loop over a list of tick inputs, keeping the state. -/
def runLoop (cfg : Config) (s : LoopState) (trace : List TickInput) : LoopState :=
  trace.foldl (fun s inp => (tick cfg inp s).1) s

/-- States of the control loop reachable from boot under arbitrary sensor,
button and clock inputs. -/
inductive Reachable (cfg : Config) : LoopState → Prop
  | init (button0 : Bool) (t0 : ℚ) : Reachable cfg (initState button0 t0)
  | step (s : LoopState) (inp : TickInput) : Reachable cfg s →
      Reachable cfg (tick cfg inp s).1

/-- States reachable under inputs in which both sensors are only ever seen
simultaneously active after some sensor has already been seen singly active
(so `last_switch` is set before any action pass can be armed).  This rules
out the degenerate runs in which action passes fire with `last_switch`
still unset. -/
inductive ReachableGood (cfg : Config) : LoopState → Prop
  | init (button0 : Bool) (t0 : ℚ) : ReachableGood cfg (initState button0 t0)
  | step (s : LoopState) (inp : TickInput) : ReachableGood cfg s →
      (bothOf cfg inp = true → s.last_switch ≠ none) →
      ReachableGood cfg (tick cfg inp s).1

/-- The key-set invariant of the spec's data model: forward and reverse are
never simultaneously held, and sprint is held only together with a
direction key. -/
def KeyInv (a : Finset Key) : Prop :=
  ¬(Key.W ∈ a ∧ Key.S ∈ a) ∧ (Key.SHIFT ∈ a → Key.W ∈ a ∨ Key.S ∈ a)

/-- Strengthened loop invariant used for the key-set property: the key
invariant itself, plus the bookkeeping facts that an armed `actions_ready`
implies a recorded `last_switch`, and that `last_switch` is only ever
unset, `1` or `2`. -/
def InvP (s : LoopState) : Prop :=
  KeyInv s.active_keys ∧
  (s.actions_ready = true → s.last_switch ≠ none) ∧
  (s.last_switch = none ∨ s.last_switch = some 1 ∨ s.last_switch = some 2)

/-- Input for one tick with the enable button left untouched. -/
def mkIn (hall1 hall2 : ℕ) (ctime : ℚ) : TickInput :=
  { hall1 := hall1, hall2 := hall2, button := false, ctime := ctime }

/-- Input trace in which the two sensors are only ever observed
simultaneously active: two both-active pulses at `t = 0` and `t = 0.02`,
each followed by an all-inactive tick that triggers an action pass with
`last_switch` still unset. -/
def bothOnlyTrace : List TickInput :=
  [mkIn 40000 40000 0, mkIn 0 0 (1/100), mkIn 40000 40000 (2/100), mkIn 0 0 (3/100)]

/-- Three ticks realising one completed switch event through sensor
`e` (1 or 2) starting at time `base`: both sensors active, then sensor `e`
alone, then none (which is the tick the action pass runs on). -/
def eventTicks (e : ℕ) (base : ℚ) : List TickInput :=
  [mkIn 40000 40000 base,
   mkIn (if e = 1 then 40000 else 0) (if e = 1 then 0 else 40000) (base + 1/20),
   mkIn 0 0 (base + 1/10)]

/-- SwitchEvent sequence A, B, A, A (sensor 1, sensor 2, sensor 1,
sensor 1) with action passes at `t` = 0.10, 0.25, 0.40, 0.55. -/
def abaaTrace : List TickInput :=
  eventTicks 1 0 ++ eventTicks 2 (3/20) ++ eventTicks 1 (6/20) ++ eventTicks 1 (9/20)

/-- SwitchEvent sequence B, B, B, A: three forward events then a single
reverse candidate, with action passes at `t` = 0.10, 0.25, 0.40, 0.55. -/
def bbbaTrace : List TickInput :=
  eventTicks 2 0 ++ eventTicks 2 (3/20) ++ eventTicks 2 (6/20) ++ eventTicks 1 (9/20)

/-- A configuration violating the constraints the spec requires startup to
enforce: `sprint_start ≥ sprint_end` and `min_timeout > max_timeout`. -/
def invalidConfig : Config where
  analog_threshold := 34100
  min_timeout := 1/2
  max_timeout := 38/100
  stop_smoothing := 4
  stop_smoothing_scale := 1/100
  sprint_start := 2/10
  sprint_end := 1/10
  sprint_smoothing := 5
  disable_sprint := false

/-- The configuration of the spec's sprint-hysteresis test vector:
`sprint_start = 0.16`, `sprint_end = 0.18`. -/
def hysteresisConfig : Config :=
  { defaultConfig with sprint_start := 16/100, sprint_end := 18/100 }

/-- Folding the sprint decision of `sprintBlock` over the aggregate
sequence [0.20, 0.15, 0.17, 0.19] under `hysteresisConfig`, recording
after each step whether SHIFT is held. -/
def sprintFlagsScenario : List Bool :=
  (([(20:ℚ)/100, 15/100, 17/100, 19/100].foldl
    (fun (p : Finset Key × List Bool) x =>
      let a := (sprintBlock hysteresisConfig false x p.1).1
      (a, p.2 ++ [decide (Key.SHIFT ∈ a)]))
    (∅, []))).2

/-! ### Helper lemmas about the key-tracking primitives -/

theorem press_key_mem_self (db : Bool) (k : Key) (a : Finset Key) :
    k ∈ (press_key db k a).1 := by
  unfold press_key
  by_cases h : k ∈ a <;> simp [h]

theorem press_key_mem_other (db : Bool) (k x : Key) (a : Finset Key) (hx : x ≠ k) :
    x ∈ (press_key db k a).1 ↔ x ∈ a := by
  unfold press_key
  by_cases h : k ∈ a <;> simp [h, hx]

theorem release_key_not_mem_self (db : Bool) (k : Key) (a : Finset Key) :
    k ∉ (release_key db k a).1 := by
  unfold release_key
  by_cases h : k ∈ a <;> simp [h]

theorem release_key_mem_other (db : Bool) (k x : Key) (a : Finset Key) (hx : x ≠ k) :
    x ∈ (release_key db k a).1 ↔ x ∈ a := by
  unfold release_key
  by_cases h : k ∈ a <;> simp [h, Finset.mem_erase, hx]

theorem directionKeys_forward (db : Bool) (a : Finset Key) :
    Key.W ∈ (directionKeys db (some 2) a).1 ∧ Key.S ∉ (directionKeys db (some 2) a).1 := by
  constructor
  · exact press_key_mem_self db Key.W (release_key db Key.S a).1
  · intro hmem
    have h2 := (press_key_mem_other db Key.W Key.S (release_key db Key.S a).1
      (by decide)).mp hmem
    exact release_key_not_mem_self db Key.S a h2

theorem directionKeys_reverse (db : Bool) (a : Finset Key) :
    Key.S ∈ (directionKeys db (some 1) a).1 ∧ Key.W ∉ (directionKeys db (some 1) a).1 := by
  constructor
  · exact press_key_mem_self db Key.S (release_key db Key.W a).1
  · intro hmem
    have h2 := (press_key_mem_other db Key.S Key.W (release_key db Key.W a).1
      (by decide)).mp hmem
    exact release_key_not_mem_self db Key.W a h2

theorem directionKeys_shift (db : Bool) (ls : Option ℕ) (a : Finset Key) :
    Key.SHIFT ∈ (directionKeys db ls a).1 ↔ Key.SHIFT ∈ a := by
  unfold directionKeys
  split
  · rw [press_key_mem_other db Key.W Key.SHIFT _ (by decide),
      release_key_mem_other db Key.S Key.SHIFT _ (by decide)]
  · rw [press_key_mem_other db Key.S Key.SHIFT _ (by decide),
      release_key_mem_other db Key.W Key.SHIFT _ (by decide)]
  · exact Iff.rfl

theorem directionKeys_ws (db : Bool) (ls : Option ℕ) (a : Finset Key)
    (h : ¬(Key.W ∈ a ∧ Key.S ∈ a)) :
    ¬(Key.W ∈ (directionKeys db ls a).1 ∧ Key.S ∈ (directionKeys db ls a).1) := by
  unfold directionKeys
  split
  · intro hc
    have h2 := (press_key_mem_other db Key.W Key.S _ (by decide)).mp hc.2
    exact release_key_not_mem_self db Key.S a h2
  · intro hc
    have h2 := (press_key_mem_other db Key.S Key.W _ (by decide)).mp hc.1
    exact release_key_not_mem_self db Key.W a h2
  · exact h

theorem sprintBlock_mem_other (cfg : Config) (db : Bool) (avg : ℚ) (a : Finset Key)
    (x : Key) (hx : x ≠ Key.SHIFT) :
    x ∈ (sprintBlock cfg db avg a).1 ↔ x ∈ a := by
  unfold sprintBlock
  split
  · split
    · exact press_key_mem_other db Key.SHIFT x a hx
    · split
      · exact release_key_mem_other db Key.SHIFT x a hx
      · exact Iff.rfl
  · exact Iff.rfl

/-! ### Field preservation through the per-tick blocks -/

theorem buttonBlock_fields (b : Bool) (s : LoopState) :
    (buttonBlock b s).active_keys = s.active_keys ∧
    (buttonBlock b s).actions_ready = s.actions_ready ∧
    (buttonBlock b s).last_switch = s.last_switch ∧
    (buttonBlock b s).interval_history = s.interval_history ∧
    (buttonBlock b s).smoothed_min_timeout_interval = s.smoothed_min_timeout_interval ∧
    (buttonBlock b s).last_activity = s.last_activity := by
  unfold buttonBlock
  split
  · split <;> exact ⟨rfl, rfl, rfl, rfl, rfl, rfl⟩
  · exact ⟨rfl, rfl, rfl, rfl, rfl, rfl⟩

theorem idleBlock_fields (t : ℚ) (s : LoopState) :
    (idleBlock t s).active_keys = s.active_keys ∧
    (idleBlock t s).actions_ready = s.actions_ready ∧
    (idleBlock t s).last_switch = s.last_switch ∧
    (idleBlock t s).interval_history = s.interval_history ∧
    (idleBlock t s).smoothed_min_timeout_interval = s.smoothed_min_timeout_interval := by
  unfold idleBlock
  split <;> exact ⟨rfl, rfl, rfl, rfl, rfl⟩

theorem stopBlock_cases (cfg : Config) (t : ℚ) (s : LoopState) :
    stopBlock cfg t s = (s, [], false) ∨
    (stopBlock cfg t s = ((full_stop s).1, (full_stop s).2, true) ∧ s.active_keys ≠ ∅) := by
  simp only [stopBlock]
  split
  · split
    · next hk => exact Or.inr ⟨rfl, hk⟩
    · exact Or.inl rfl
  · exact Or.inl rfl

theorem stopBlock_fired (cfg : Config) (t : ℚ) (s : LoopState)
    (h : (stopBlock cfg t s).2.2 = true) :
    s.active_keys ≠ ∅ ∧ (stopBlock cfg t s).1.active_keys = ∅ := by
  rcases stopBlock_cases cfg t s with hc | ⟨hc, hk⟩
  · rw [hc] at h
    exact absurd h (by simp)
  · rw [hc]
    exact ⟨hk, rfl⟩

theorem stopBlock_of_empty (cfg : Config) (t : ℚ) (s : LoopState)
    (h : s.active_keys = ∅) : stopBlock cfg t s = (s, [], false) := by
  rcases stopBlock_cases cfg t s with hc | ⟨_, hk⟩
  · exact hc
  · exact absurd h hk

theorem preActionState_cases (cfg : Config) (inp : TickInput) (s : LoopState) :
    (preActionState cfg inp s =
      { idleBlock inp.ctime (buttonBlock inp.button s) with
        last_switch := some (if switch1Of cfg inp then 1 else 2) } ∧
      (eitherOf cfg inp && !bothOf cfg inp) = true) ∨
    (preActionState cfg inp s = idleBlock inp.ctime (buttonBlock inp.button s) ∧
      (eitherOf cfg inp && !bothOf cfg inp) = false) := by
  cases h : (eitherOf cfg inp && !bothOf cfg inp)
  · exact Or.inr ⟨by simp [preActionState, h], rfl⟩
  · exact Or.inl ⟨by simp [preActionState, h], rfl⟩

theorem actionPhase_cases (cfg : Config) (inp : TickInput) (s3 : LoopState) :
    (actionPhase cfg inp s3 = ({ s3 with actions_ready := true }, []) ∧
      bothOf cfg inp = true) ∨
    (actionPhase cfg inp s3 = actionBlock cfg inp.ctime s3 ∧
      bothOf cfg inp = false ∧ s3.actions_ready = true ∧ eitherOf cfg inp = false) ∨
    actionPhase cfg inp s3 = (s3, []) := by
  cases hb : bothOf cfg inp
  · cases ha : s3.actions_ready
    · exact Or.inr (Or.inr (by simp [actionPhase, hb, ha]))
    · cases he : eitherOf cfg inp
      · exact Or.inr (Or.inl ⟨by simp [actionPhase, hb, ha, he], rfl, rfl, rfl⟩)
      · exact Or.inr (Or.inr (by simp [actionPhase, hb, ha, he]))
  · exact Or.inl ⟨by simp [actionPhase, hb], rfl⟩

theorem tickPre_parts (cfg : Config) (inp : TickInput) (s : LoopState) :
    (tickPre cfg inp s).1 =
      (stopBlock cfg inp.ctime (actionPhase cfg inp (preActionState cfg inp s)).1).1 ∧
    (tickPre cfg inp s).2.2 =
      (stopBlock cfg inp.ctime (actionPhase cfg inp (preActionState cfg inp s)).1).2.2 :=
  ⟨rfl, rfl⟩

theorem tick_parts (cfg : Config) (inp : TickInput) (s : LoopState) :
    (tick cfg inp s).1.active_keys = (tickPre cfg inp s).1.active_keys ∧
    (tick cfg inp s).1.actions_ready = (tickPre cfg inp s).1.actions_ready ∧
    (tick cfg inp s).1.last_switch = (tickPre cfg inp s).1.last_switch ∧
    (tick cfg inp s).1.interval_history =
      pruneHistory cfg (tickPre cfg inp s).1.interval_history ∧
    (tick cfg inp s).2.2 = (tickPre cfg inp s).2.2 :=
  ⟨rfl, rfl, rfl, rfl, rfl⟩

theorem actionBlock_active_keys (cfg : Config) (t : ℚ) (s : LoopState) :
    (actionBlock cfg t s).1.active_keys =
      if s.interval_history.length ≠ 0 then
        (sprintBlock cfg s.disable_keyboard
          (get_interval_avg_sprint cfg.sprint_smoothing t s.interval_history).2
          (directionKeys s.disable_keyboard s.last_switch s.active_keys).1).1
      else (directionKeys s.disable_keyboard s.last_switch s.active_keys).1 := by
  simp only [actionBlock]
  split
  · rfl
  · rfl

theorem actionBlock_fields (cfg : Config) (t : ℚ) (s : LoopState) :
    (actionBlock cfg t s).1.actions_ready = false ∧
    (actionBlock cfg t s).1.last_switch = s.last_switch ∧
    (actionBlock cfg t s).1.interval_history = s.interval_history ++ [t] ∧
    (actionBlock cfg t s).1.last_activity = t ∧
    (actionBlock cfg t s).1.disable_keyboard = s.disable_keyboard :=
  ⟨rfl, rfl, rfl, rfl, rfl⟩

theorem keyInv_of_dir (a : Finset Key)
    (h : (Key.S ∈ a ∧ Key.W ∉ a) ∨ (Key.W ∈ a ∧ Key.S ∉ a)) : KeyInv a := by
  rcases h with ⟨h1, h2⟩ | ⟨h1, h2⟩
  · exact ⟨fun hc => h2 hc.1, fun _ => Or.inr h1⟩
  · exact ⟨fun hc => h2 hc.2, fun _ => Or.inl h1⟩

theorem sprintBlock_dir (cfg : Config) (db : Bool) (avg : ℚ) (a : Finset Key)
    (h : (Key.S ∈ a ∧ Key.W ∉ a) ∨ (Key.W ∈ a ∧ Key.S ∉ a)) :
    (Key.S ∈ (sprintBlock cfg db avg a).1 ∧ Key.W ∉ (sprintBlock cfg db avg a).1) ∨
    (Key.W ∈ (sprintBlock cfg db avg a).1 ∧ Key.S ∉ (sprintBlock cfg db avg a).1) := by
  rw [sprintBlock_mem_other cfg db avg a Key.S (by decide),
    sprintBlock_mem_other cfg db avg a Key.W (by decide)]
  exact h

theorem actionBlock_keyInv (cfg : Config) (t : ℚ) (s : LoopState)
    (hls : s.last_switch = some 1 ∨ s.last_switch = some 2) :
    KeyInv (actionBlock cfg t s).1.active_keys := by
  have hdk : (Key.S ∈ (directionKeys s.disable_keyboard s.last_switch s.active_keys).1 ∧
        Key.W ∉ (directionKeys s.disable_keyboard s.last_switch s.active_keys).1) ∨
      (Key.W ∈ (directionKeys s.disable_keyboard s.last_switch s.active_keys).1 ∧
        Key.S ∉ (directionKeys s.disable_keyboard s.last_switch s.active_keys).1) := by
    rcases hls with h | h <;> rw [h]
    · exact Or.inl (directionKeys_reverse _ _)
    · exact Or.inr (directionKeys_forward _ _)
  rw [actionBlock_active_keys]
  split
  · exact keyInv_of_dir _ (sprintBlock_dir _ _ _ _ hdk)
  · exact keyInv_of_dir _ hdk

theorem actionBlock_ws (cfg : Config) (t : ℚ) (s : LoopState)
    (h : ¬(Key.W ∈ s.active_keys ∧ Key.S ∈ s.active_keys)) :
    ¬(Key.W ∈ (actionBlock cfg t s).1.active_keys ∧
      Key.S ∈ (actionBlock cfg t s).1.active_keys) := by
  rw [actionBlock_active_keys]
  split
  · rw [sprintBlock_mem_other _ _ _ _ Key.W (by decide),
      sprintBlock_mem_other _ _ _ _ Key.S (by decide)]
    exact directionKeys_ws _ _ _ h
  · exact directionKeys_ws _ _ _ h

/-! ### Invariant preservation through one tick -/

theorem invP_buttonBlock (b : Bool) (s : LoopState) (h : InvP s) : InvP (buttonBlock b s) := by
  obtain ⟨h1, h2, h3, -, -, -⟩ := buttonBlock_fields b s
  unfold InvP KeyInv at h ⊢
  rw [h1, h2, h3]
  exact h

theorem invP_idleBlock (t : ℚ) (s : LoopState) (h : InvP s) : InvP (idleBlock t s) := by
  obtain ⟨h1, h2, h3, -, -⟩ := idleBlock_fields t s
  unfold InvP KeyInv at h ⊢
  rw [h1, h2, h3]
  exact h

theorem invP_stopBlock (cfg : Config) (t : ℚ) (s : LoopState) (h : InvP s) :
    InvP (stopBlock cfg t s).1 := by
  rcases stopBlock_cases cfg t s with hc | ⟨hc, -⟩
  · rw [hc]
    exact h
  · rw [hc]
    refine ⟨⟨?_, ?_⟩, h.2.1, h.2.2⟩
    · intro hcon
      exact absurd hcon.1 (Finset.not_mem_empty _)
    · intro hsh
      exact absurd hsh (Finset.not_mem_empty _)

theorem invP_tick (cfg : Config) (inp : TickInput) (s : LoopState) (h : InvP s)
    (hboth : bothOf cfg inp = true → s.last_switch ≠ none) :
    InvP (tick cfg inp s).1 := by
  have hs2 : InvP (idleBlock inp.ctime (buttonBlock inp.button s)) :=
    invP_idleBlock _ _ (invP_buttonBlock _ _ h)
  obtain ⟨-, hb2, hb3, -, -, -⟩ := buttonBlock_fields inp.button s
  obtain ⟨-, hi2, hi3, -, -⟩ := idleBlock_fields inp.ctime (buttonBlock inp.button s)
  have hs3 : InvP (preActionState cfg inp s) ∧
      (preActionState cfg inp s).actions_ready = s.actions_ready ∧
      ((preActionState cfg inp s).last_switch = s.last_switch ∨
        (preActionState cfg inp s).last_switch ≠ none) := by
    rcases preActionState_cases cfg inp s with ⟨he, -⟩ | ⟨he, -⟩
    · rw [he]
      refine ⟨⟨hs2.1, fun _ => ?_, ?_⟩, ?_, Or.inr ?_⟩
      · simp
      · cases hsw : switch1Of cfg inp
        · right; right; simp [hsw]
        · right; left; simp [hsw]
      · show (idleBlock inp.ctime (buttonBlock inp.button s)).actions_ready = s.actions_ready
        rw [hi2, hb2]
      · simp
    · rw [he]
      exact ⟨hs2, by rw [hi2, hb2], Or.inl (by rw [hi3, hb3])⟩
  have hac : InvP (actionPhase cfg inp (preActionState cfg inp s)).1 := by
    rcases actionPhase_cases cfg inp (preActionState cfg inp s) with
      ⟨ha, hbT⟩ | ⟨ha, -, har, -⟩ | ha
    · rw [ha]
      refine ⟨hs3.1.1, fun _ => ?_, hs3.1.2.2⟩
      rcases hs3.2.2 with hl | hl
      · show (preActionState cfg inp s).last_switch ≠ none
        rw [hl]
        exact hboth hbT
      · exact hl
    · rw [ha]
      have hreq : s.actions_ready = true := by rw [← hs3.2.1]; exact har
      have hne : (preActionState cfg inp s).last_switch ≠ none := by
        rcases hs3.2.2 with hl | hl
        · rw [hl]; exact h.2.1 hreq
        · exact hl
      have hls : (preActionState cfg inp s).last_switch = some 1 ∨
          (preActionState cfg inp s).last_switch = some 2 := by
        rcases hs3.1.2.2 with hl | hl | hl
        · exact absurd hl hne
        · exact Or.inl hl
        · exact Or.inr hl
      refine ⟨actionBlock_keyInv _ _ _ hls, fun hf => ?_, ?_⟩
      · rw [(actionBlock_fields cfg inp.ctime _).1] at hf
        exact absurd hf (by simp)
      · rw [(actionBlock_fields cfg inp.ctime _).2.1]
        exact hs3.1.2.2
    · rw [ha]
      exact hs3.1
  have hpre : InvP (tickPre cfg inp s).1 := by
    rw [(tickPre_parts cfg inp s).1]
    exact invP_stopBlock _ _ _ hac
  exact ⟨hpre.1, hpre.2.1, hpre.2.2⟩

theorem ws_tick (cfg : Config) (inp : TickInput) (s : LoopState)
    (h : ¬(Key.W ∈ s.active_keys ∧ Key.S ∈ s.active_keys)) :
    ¬(Key.W ∈ (tick cfg inp s).1.active_keys ∧ Key.S ∈ (tick cfg inp s).1.active_keys) := by
  obtain ⟨hb1, -, -, -, -, -⟩ := buttonBlock_fields inp.button s
  obtain ⟨hi1, -, -, -, -⟩ := idleBlock_fields inp.ctime (buttonBlock inp.button s)
  have hs3 : (preActionState cfg inp s).active_keys = s.active_keys := by
    rcases preActionState_cases cfg inp s with ⟨he, -⟩ | ⟨he, -⟩
    · rw [he]
      show (idleBlock inp.ctime (buttonBlock inp.button s)).active_keys = s.active_keys
      rw [hi1, hb1]
    · rw [he, hi1, hb1]
  have hs3w : ¬(Key.W ∈ (preActionState cfg inp s).active_keys ∧
      Key.S ∈ (preActionState cfg inp s).active_keys) := by
    rw [hs3]; exact h
  have hac : ¬(Key.W ∈ (actionPhase cfg inp (preActionState cfg inp s)).1.active_keys ∧
      Key.S ∈ (actionPhase cfg inp (preActionState cfg inp s)).1.active_keys) := by
    rcases actionPhase_cases cfg inp (preActionState cfg inp s) with
      ⟨ha, -⟩ | ⟨ha, -, -, -⟩ | ha
    · rw [ha]
      exact hs3w
    · rw [ha]
      exact actionBlock_ws _ _ _ hs3w
    · rw [ha]
      exact hs3w
  rcases stopBlock_cases cfg inp.ctime (actionPhase cfg inp (preActionState cfg inp s)).1 with
    hc | ⟨hc, -⟩
  · have : (tick cfg inp s).1.active_keys =
        (actionPhase cfg inp (preActionState cfg inp s)).1.active_keys := by
      show (stopBlock cfg inp.ctime (actionPhase cfg inp (preActionState cfg inp s)).1).1.active_keys = _
      rw [hc]
    rw [this]
    exact hac
  · have : (tick cfg inp s).1.active_keys = ∅ := by
      show (stopBlock cfg inp.ctime (actionPhase cfg inp (preActionState cfg inp s)).1).1.active_keys = _
      rw [hc]
      rfl
    rw [this]
    intro hcon
    exact absurd hcon.1 (Finset.not_mem_empty _)

theorem reachable_ws (cfg : Config) (s : LoopState) (h : Reachable cfg s) :
    ¬(Key.W ∈ s.active_keys ∧ Key.S ∈ s.active_keys) := by
  induction h with
  | init b t =>
      intro hc
      exact absurd hc.1 (Finset.not_mem_empty _)
  | step s' inp hr ih => exact ws_tick cfg inp s' ih

theorem reachableGood_invP (cfg : Config) (s : LoopState) (h : ReachableGood cfg s) :
    InvP s := by
  induction h with
  | init b t =>
      refine ⟨⟨fun hc => absurd hc.1 (Finset.not_mem_empty _),
        fun hc => absurd hc (Finset.not_mem_empty _)⟩, fun hf => ?_, Or.inl rfl⟩
      exact absurd hf (by simp [initState])
  | step s' inp hr hcond ih => exact invP_tick cfg inp s' ih hcond

theorem runLoop_reachable (cfg : Config) (button0 : Bool) (t0 : ℚ) (trace : List TickInput) :
    Reachable cfg (runLoop cfg (initState button0 t0) trace) := by
  have hgen : ∀ (tr : List TickInput) (s : LoopState), Reachable cfg s →
      Reachable cfg (runLoop cfg s tr) := by
    intro tr
    induction tr with
    | nil => intro s hs; exact hs
    | cons i tr ih =>
        intro s hs
        exact ih (tick cfg i s).1 (Reachable.step s i hs)
  exact hgen trace _ (Reachable.init button0 t0)

/-! ### History pruning -/

theorem pruneHistory_length_le (cfg : Config) (l : List ℚ) :
    (pruneHistory cfg l).length ≤ cfg.maxHistory := by
  unfold pruneHistory
  split
  · rw [List.length_drop]
    omega
  · omega

theorem pruneHistory_take_append (cfg : Config) (l : List ℚ) :
    l.take (l.length - cfg.maxHistory) ++ pruneHistory cfg l = l := by
  unfold pruneHistory
  split
  · exact List.take_append_drop _ _
  · next hle =>
      have h0 : l.length - cfg.maxHistory = 0 := by omega
      rw [h0, List.take_zero, List.nil_append]

theorem pruneHistory_length_exceeded (cfg : Config) (l : List ℚ)
    (h : cfg.maxHistory < l.length) : (pruneHistory cfg l).length = cfg.maxHistory := by
  unfold pruneHistory
  rw [if_pos h, List.length_drop]
  omega

theorem reachable_history_le (cfg : Config) (s : LoopState) (h : Reachable cfg s) :
    s.interval_history.length ≤ cfg.maxHistory := by
  induction h with
  | init b t => exact Nat.zero_le _
  | step s' inp hr ih =>
      rw [(tick_parts cfg inp s').2.2.2.1]
      exact pruneHistory_length_le _ _

theorem tick_stopped_stays (cfg : Config) (inp : TickInput) (s : LoopState)
    (hk : s.active_keys = ∅)
    (hna : ¬(s.actions_ready = true ∧ eitherOf cfg inp = false)) :
    (tick cfg inp s).1.active_keys = ∅ ∧ (tick cfg inp s).2.2 = false := by
  obtain ⟨hb1, hb2, -, -, -, -⟩ := buttonBlock_fields inp.button s
  obtain ⟨hi1, hi2, -, -, -⟩ := idleBlock_fields inp.ctime (buttonBlock inp.button s)
  have hs3k : (preActionState cfg inp s).active_keys = ∅ := by
    rcases preActionState_cases cfg inp s with ⟨he, -⟩ | ⟨he, -⟩
    · rw [he]
      show (idleBlock inp.ctime (buttonBlock inp.button s)).active_keys = ∅
      rw [hi1, hb1, hk]
    · rw [he, hi1, hb1, hk]
  have hs3r : (preActionState cfg inp s).actions_ready = s.actions_ready := by
    rcases preActionState_cases cfg inp s with ⟨he, -⟩ | ⟨he, -⟩
    · rw [he]
      show (idleBlock inp.ctime (buttonBlock inp.button s)).actions_ready = s.actions_ready
      rw [hi2, hb2]
    · rw [he, hi2, hb2]
  have hack : (actionPhase cfg inp (preActionState cfg inp s)).1.active_keys = ∅ := by
    rcases actionPhase_cases cfg inp (preActionState cfg inp s) with
      ⟨ha, -⟩ | ⟨ha, -, har, heF⟩ | ha
    · rw [ha]
      exact hs3k
    · exact absurd ⟨by rw [← hs3r]; exact har, heF⟩ hna
    · rw [ha]
      exact hs3k
  have hsb := stopBlock_of_empty cfg inp.ctime
    (actionPhase cfg inp (preActionState cfg inp s)).1 hack
  constructor
  · show (stopBlock cfg inp.ctime (actionPhase cfg inp (preActionState cfg inp s)).1).1.active_keys = ∅
    rw [hsb]
    exact hack
  · show (stopBlock cfg inp.ctime (actionPhase cfg inp (preActionState cfg inp s)).1).2.2 = false
    rw [hsb]

/-! ### Claim theorems -/

set_option maxRecDepth 10000

/-- C1 (amended): in every state reachable by the control loop, the
MoveForward key W and the MoveReverse key S are never simultaneously held;
and in every state reachable in a run whose both-active inputs occur only
after some sensor has been seen singly active (`last_switch` set), the
Sprint key SHIFT is held only while a direction key is held. -/
theorem c1_key_invariant (cfg : Config) (s : LoopState) :
    (Reachable cfg s → ¬(Key.W ∈ s.active_keys ∧ Key.S ∈ s.active_keys)) ∧
    (ReachableGood cfg s → Key.SHIFT ∈ s.active_keys →
      Key.W ∈ s.active_keys ∨ Key.S ∈ s.active_keys) := by
  constructor
  · intro h
    exact reachable_ws cfg s h
  · intro h hsh
    exact (reachableGood_invP cfg s h).1.2 hsh

/-- Witness for `c1_key_invariant` at the boot state. -/
theorem c1_key_invariant_witness :
    ¬(Key.W ∈ (initState false 0).active_keys ∧ Key.S ∈ (initState false 0).active_keys) ∧
    (Key.SHIFT ∈ (initState false 0).active_keys →
      Key.W ∈ (initState false 0).active_keys ∨ Key.S ∈ (initState false 0).active_keys) :=
  ⟨(c1_key_invariant defaultConfig (initState false 0)).1 (Reachable.init false 0),
   (c1_key_invariant defaultConfig (initState false 0)).2 (ReachableGood.init false 0)⟩

/-- C1 counterexample: after the both-only input trace (both sensors only
ever observed simultaneously active), the loop reaches a state holding
SHIFT while holding neither W nor S, refuting the claim that Sprint is
held only while a direction key is held. -/
theorem c1_counterexample :
    Key.SHIFT ∈ (runLoop defaultConfig (initState false 0) bothOnlyTrace).active_keys ∧
    Key.W ∉ (runLoop defaultConfig (initState false 0) bothOnlyTrace).active_keys ∧
    Key.S ∉ (runLoop defaultConfig (initState false 0) bothOnlyTrace).active_keys ∧
    Reachable defaultConfig (runLoop defaultConfig (initState false 0) bothOnlyTrace) :=
  ⟨by with_unfolding_all decide, by with_unfolding_all decide, by with_unfolding_all decide,
   runLoop_reachable defaultConfig false 0 bothOnlyTrace⟩

/-- C2 (amended): the key mapping is idempotent at the tracked-state layer:
a repeated `press_key` with unchanged desired state leaves the tracked set
unchanged but still re-issues the forced `keyboard.press` sink call (the
code's default force-resend), while a repeated `release_key` of an
untracked key is a complete no-op that issues no sink call. -/
theorem c2_mapper_idempotent (db : Bool) (k : Key) (a : Finset Key) :
    (k ∈ a → (press_key db k a).1 = a ∧
      (press_key db k a).2 = if db then [] else [SinkCall.press k]) ∧
    (k ∉ a → release_key db k a = (a, [])) := by
  constructor
  · intro hk
    constructor
    · simp only [press_key]
      rw [if_pos hk]
    · rfl
  · intro hk
    simp only [release_key]
    rw [if_neg hk]

/-- Witness for `c2_mapper_idempotent` with W tracked resp. untracked. -/
theorem c2_mapper_idempotent_witness :
    ((press_key false Key.W {Key.W}).1 = {Key.W} ∧
      (press_key false Key.W {Key.W}).2 = if false then [] else [SinkCall.press Key.W]) ∧
    release_key false Key.W ∅ = (∅, []) :=
  ⟨(c2_mapper_idempotent false Key.W {Key.W}).1 (by decide),
   (c2_mapper_idempotent false Key.W ∅).2 (by decide)⟩

/-- C2 counterexample: with the keyboard enabled, a second consecutive
`press_key W` call with unchanged desired state still issues a
`keyboard.press` sink call (the code forces the press on every call even
though the tracked state is unchanged), refuting the claim that no further
sink calls are issued after the initial transition. -/
theorem c2_counterexample :
    (press_key false Key.W (press_key false Key.W ∅).1).2 = [SinkCall.press Key.W] ∧
    (press_key false Key.W (press_key false Key.W ∅).1).1 = (press_key false Key.W ∅).1 := by
  constructor <;> with_unfolding_all decide

/-- C3 (amended): on the SwitchEvent sequence A, B, A, A the committed
direction is Forward (W held) after the B event and is inverted to Reverse
(S held, W released) already on the first subsequent A event — the code
keys direction directly off `last_switch` and maintains no flip flag —
while the interval history is not cleared but keeps the four event
timestamps. -/
theorem c3_reversal_scenario :
    Key.W ∈ (runLoop defaultConfig (initState false 0) (abaaTrace.take 6)).active_keys ∧
    Key.S ∉ (runLoop defaultConfig (initState false 0) (abaaTrace.take 6)).active_keys ∧
    Key.S ∈ (runLoop defaultConfig (initState false 0) (abaaTrace.take 9)).active_keys ∧
    Key.W ∉ (runLoop defaultConfig (initState false 0) (abaaTrace.take 9)).active_keys ∧
    (runLoop defaultConfig (initState false 0) abaaTrace).interval_history =
      [1/10, 1/4, 2/5, 11/20] := by
  refine ⟨?_, ?_, ?_, ?_, ?_⟩ <;> with_unfolding_all decide

/-- C3 counterexample: after the full A, B, A, A trace the direction has
been committed to Reverse but the interval history is non-empty — the code
never clears it on reversal, refuting the claim that both interval
histories are cleared. -/
theorem c3_counterexample :
    Key.S ∈ (runLoop defaultConfig (initState false 0) abaaTrace).active_keys ∧
    (runLoop defaultConfig (initState false 0) abaaTrace).interval_history ≠ [] := by
  constructor <;> with_unfolding_all decide

/-- C4: the sprint decision is a two-threshold hysteresis on the interval
aggregate: SHIFT is pressed when the aggregate is at most `sprint_start`,
released when it is at least `sprint_end`, retained strictly between; and
under `sprint_start = 0.16`, `sprint_end = 0.18` the aggregate sequence
[0.20, 0.15, 0.17, 0.19] yields the sprint flags
[off, on, on, off]. -/
theorem c4_sprint_hysteresis (cfg : Config) (db : Bool) (a : Finset Key) (avg : ℚ)
    (hd : cfg.disable_sprint = false) (hlt : cfg.sprint_start < cfg.sprint_end) :
    (avg ≤ cfg.sprint_start → Key.SHIFT ∈ (sprintBlock cfg db avg a).1) ∧
    (cfg.sprint_end ≤ avg → Key.SHIFT ∉ (sprintBlock cfg db avg a).1) ∧
    (cfg.sprint_start < avg → avg < cfg.sprint_end →
      (Key.SHIFT ∈ (sprintBlock cfg db avg a).1 ↔ Key.SHIFT ∈ a)) ∧
    sprintFlagsScenario = [false, true, true, false] := by
  refine ⟨?_, ?_, ?_, by with_unfolding_all decide⟩
  · intro h1
    unfold sprintBlock
    rw [if_pos hd, if_pos h1]
    exact press_key_mem_self db Key.SHIFT a
  · intro h2
    have hns : ¬(avg ≤ cfg.sprint_start) := by
      intro hc
      linarith
    unfold sprintBlock
    rw [if_pos hd, if_neg hns, if_pos h2]
    exact release_key_not_mem_self db Key.SHIFT a
  · intro h3 h4
    unfold sprintBlock
    rw [if_pos hd, if_neg (not_le.mpr h3), if_neg (not_le.mpr h4)]

/-- Witness for `c4_sprint_hysteresis` under the test-vector
configuration: aggregate 0.15 enters sprint. -/
theorem c4_sprint_hysteresis_witness :
    Key.SHIFT ∈ (sprintBlock hysteresisConfig false (15/100) ∅).1 :=
  (c4_sprint_hysteresis hysteresisConfig false ∅ (15/100) rfl
    (by with_unfolding_all decide)).1 (by with_unfolding_all decide)

/-- C5: in every reachable state the interval history holds at most
`max_history` entries at the end of a tick (the tick output is always the
pruned list), and eviction is strictly FIFO: what pruning removes is
exactly the oldest `length - max_history` prefix, the retained entries are
a suffix kept in order, and when the bound was exceeded exactly the newest
`max_history` entries remain. -/
theorem c5_history_bounded_fifo (cfg : Config) (s : LoopState) (h : Reachable cfg s)
    (l : List ℚ) (inp : TickInput) :
    s.interval_history.length ≤ cfg.maxHistory ∧
    (tick cfg inp s).1.interval_history =
      pruneHistory cfg (tickPre cfg inp s).1.interval_history ∧
    l.take (l.length - cfg.maxHistory) ++ pruneHistory cfg l = l ∧
    (cfg.maxHistory < l.length → (pruneHistory cfg l).length = cfg.maxHistory) :=
  ⟨reachable_history_le cfg s h, rfl, pruneHistory_take_append cfg l,
   fun hl => pruneHistory_length_exceeded cfg l hl⟩

/-- Witness for `c5_history_bounded_fifo`: the boot state, an 8-entry list
against `max_history = 6`, and an idle tick input. -/
theorem c5_history_bounded_fifo_witness :
    (initState false 0).interval_history.length ≤ defaultConfig.maxHistory ∧
    (tick defaultConfig (mkIn 0 0 1) (initState false 0)).1.interval_history =
      pruneHistory defaultConfig
        (tickPre defaultConfig (mkIn 0 0 1) (initState false 0)).1.interval_history ∧
    ([0, 1, 2, 3, 4, 5, 6, 7] : List ℚ).take
        (([0, 1, 2, 3, 4, 5, 6, 7] : List ℚ).length - defaultConfig.maxHistory) ++
      pruneHistory defaultConfig [0, 1, 2, 3, 4, 5, 6, 7] = [0, 1, 2, 3, 4, 5, 6, 7] ∧
    (defaultConfig.maxHistory < ([0, 1, 2, 3, 4, 5, 6, 7] : List ℚ).length →
      (pruneHistory defaultConfig [0, 1, 2, 3, 4, 5, 6, 7]).length =
        defaultConfig.maxHistory) :=
  c5_history_bounded_fifo defaultConfig (initState false 0) (Reachable.init false 0)
    [0, 1, 2, 3, 4, 5, 6, 7] (mkIn 0 0 1)

/-- C6: the code performs no startup validation: under a configuration
violating the spec's constraints (`sprint_start ≥ sprint_end` and
`min_timeout > max_timeout`) the loop runs normally and emits keypresses
instead of rejecting the configuration with an error. -/
theorem c6_no_startup_validation :
    invalidConfig.sprint_end < invalidConfig.sprint_start ∧
    invalidConfig.max_timeout < invalidConfig.min_timeout ∧
    Key.W ∈ (runLoop invalidConfig (initState false 0) (eventTicks 2 0)).active_keys := by
  refine ⟨?_, ?_, ?_⟩ <;> with_unfolding_all decide

/-- C7 counterexample: with the default configuration, one smoothing pass
with aggregate 0.05 (below `min_timeout = 0.191`) drops the smoothed
timeout from 0.38 directly to 0.191, a decrease of 0.189 — far more than
`stop_smoothing_scale = 0.01` — refuting the claimed per-pass decay
bound. -/
theorem c7_counterexample :
    updateSmoothed defaultConfig (some (38/100)) (5/100) = some (191/1000) ∧
    ¬((38:ℚ)/100 - 191/1000 ≤ defaultConfig.stop_smoothing_scale) := by
  constructor <;> with_unfolding_all decide

/-- C7 (amended): the smoothed timeout is initialised to
`max(aggregate, max_timeout)`; on a pass whose aggregate is below the
current value but at least `min_timeout` it decays by at most
`stop_smoothing_scale` toward the aggregate and never below `min_timeout`;
on a pass whose aggregate is below `min_timeout` it is set directly to
`min_timeout` (possibly dropping by more than the scale); otherwise it is
unchanged; and `full_stop` runs exactly when the stop condition holds (the
smoothed value is truthy and the rolling aggregate exceeds it, or the
wall-clock gap since the last event exceeds `max_timeout`) and some key is
held. -/
theorem c7_adaptive_stop (cfg : Config) (sm : Option ℚ) (v avg : ℚ) (s : LoopState)
    (t : ℚ) :
    (truthyQ sm = false → updateSmoothed cfg sm avg = some (max avg cfg.max_timeout)) ∧
    (sm = some v → truthyQ sm = true → avg < v → cfg.min_timeout ≤ avg →
      updateSmoothed cfg sm avg = some (max avg (v - cfg.stop_smoothing_scale)) ∧
      avg ≤ max avg (v - cfg.stop_smoothing_scale) ∧
      v - max avg (v - cfg.stop_smoothing_scale) ≤ cfg.stop_smoothing_scale ∧
      cfg.min_timeout ≤ max avg (v - cfg.stop_smoothing_scale)) ∧
    (sm = some v → truthyQ sm = true → avg < v → avg < cfg.min_timeout →
      updateSmoothed cfg sm avg = some cfg.min_timeout) ∧
    (sm = some v → truthyQ sm = true → v ≤ avg → updateSmoothed cfg sm avg = sm) ∧
    ((stopBlock cfg t s).2.2 = true ↔
      (((truthyQ s.smoothed_min_timeout_interval = true ∧
          s.smoothed_min_timeout_interval.getD 0 <
            (get_interval_avg_sprint cfg.stop_smoothing t s.interval_history).2) ∨
        (s.last_activity ≠ 0 ∧ cfg.max_timeout < t - s.last_activity)) ∧
        s.active_keys ≠ ∅)) := by
  refine ⟨?_, ?_, ?_, ?_, ?_⟩
  · intro hf
    unfold updateSmoothed
    rw [if_pos hf]
  · intro he ht hlt hge
    subst he
    have hne : ¬(truthyQ (some v) = false) := by rw [ht]; simp
    constructor
    · unfold updateSmoothed
      rw [if_neg hne]
      simp only [Option.getD_some]
      rw [if_pos hlt, if_pos hge]
    · refine ⟨le_max_left _ _, ?_, le_trans hge (le_max_left _ _)⟩
      have hmr := le_max_right avg (v - cfg.stop_smoothing_scale)
      linarith
  · intro he ht hlt hlt2
    subst he
    have hne : ¬(truthyQ (some v) = false) := by rw [ht]; simp
    have hng : ¬(cfg.min_timeout ≤ avg) := not_le.mpr hlt2
    unfold updateSmoothed
    rw [if_neg hne]
    simp only [Option.getD_some]
    rw [if_pos hlt, if_neg hng]
  · intro he ht hge
    subst he
    have hne : ¬(truthyQ (some v) = false) := by rw [ht]; simp
    have hng : ¬(avg < v) := not_lt.mpr hge
    unfold updateSmoothed
    rw [if_neg hne]
    simp only [Option.getD_some]
    rw [if_neg hng]
  · simp only [stopBlock]
    split
    · next hcond =>
        split
        · next hk =>
            exact ⟨fun _ => ⟨hcond, hk⟩, fun _ => rfl⟩
        · next hk =>
            exact ⟨fun hf => absurd hf (by simp), fun hc => absurd hc.2 hk⟩
    · next hcond =>
        exact ⟨fun hf => absurd hf (by simp), fun hc => absurd hc.1 hcond⟩

/-- Witness for `c7_adaptive_stop`: a decaying pass from 0.38 with
aggregate 0.25 under the default configuration. -/
theorem c7_adaptive_stop_witness :
    updateSmoothed defaultConfig (some ((38:ℚ)/100)) (25/100) =
      some (max ((25:ℚ)/100) ((38:ℚ)/100 - defaultConfig.stop_smoothing_scale)) :=
  ((c7_adaptive_stop defaultConfig (some (38/100)) (38/100) (25/100) (initState false 0)
    0).2.1 rfl (by with_unfolding_all decide)
    (by with_unfolding_all decide) (by with_unfolding_all decide)).1

/-- C8: stop detection fires at most once per idle period: the stop action
requires a non-empty held-key set and clears it, so it cannot re-fire on a
later tick of the same idle period; and once stopped (no keys held), any
tick that does not complete a qualifying SwitchEvent (an armed action pass
with both sensors released) leaves the key set empty and fires no stop. -/
theorem c8_stop_once (cfg : Config) (inp : TickInput) (s : LoopState) (t : ℚ) :
    ((stopBlock cfg t s).2.2 = true →
      s.active_keys ≠ ∅ ∧ (stopBlock cfg t s).1.active_keys = ∅) ∧
    (s.active_keys = ∅ → ¬(s.actions_ready = true ∧ eitherOf cfg inp = false) →
      (tick cfg inp s).1.active_keys = ∅ ∧ (tick cfg inp s).2.2 = false) :=
  ⟨stopBlock_fired cfg t s, tick_stopped_stays cfg inp s⟩

/-- Witness for `c8_stop_once`: a state holding W with a stale
`last_activity` fires the stop and clears the keys; the boot state stays
stopped through an idle tick. -/
theorem c8_stop_once_witness :
    ({ initState false 0 with
        active_keys := {Key.W}, last_activity := 1 } : LoopState).active_keys ≠ ∅ ∧
    (stopBlock defaultConfig 2
      { initState false 0 with
        active_keys := {Key.W}, last_activity := 1 }).1.active_keys = ∅ ∧
    (tick defaultConfig (mkIn 0 0 5) (initState false 0)).1.active_keys = ∅ ∧
    (tick defaultConfig (mkIn 0 0 5) (initState false 0)).2.2 = false := by
  have h1 := (c8_stop_once defaultConfig (mkIn 0 0 5)
    { initState false 0 with active_keys := {Key.W}, last_activity := 1 } 2).1
    (by with_unfolding_all decide)
  have h2 := (c8_stop_once defaultConfig (mkIn 0 0 5) (initState false 0) 2).2
    (by with_unfolding_all decide) (by with_unfolding_all decide)
  exact ⟨h1.1, h1.2, h2.1, h2.2⟩

/-- C9 counterexample: after three Forward SwitchEvents (B, B, B) the loop
holds W; one single Reverse candidate (one A event) immediately flips the
held key to S — refuting the claim that a single new Reverse candidate
does not change the committed direction. -/
theorem c9_counterexample :
    Key.W ∈ (runLoop defaultConfig (initState false 0) (bbbaTrace.take 9)).active_keys ∧
    Key.S ∉ (runLoop defaultConfig (initState false 0) (bbbaTrace.take 9)).active_keys ∧
    Key.S ∈ (runLoop defaultConfig (initState false 0) bbbaTrace).active_keys ∧
    Key.W ∉ (runLoop defaultConfig (initState false 0) bbbaTrace).active_keys := by
  refine ⟨?_, ?_, ?_, ?_⟩ <;> with_unfolding_all decide

/-- C9 (amended): the code maintains no direction-smoothing window: on
every action pass the direction keys follow the current `last_switch`
immediately and unconditionally, so a single Reverse candidate — even
right after arbitrarily many Forward candidates — flips the held direction
key at once. -/
theorem c9_direction_no_smoothing (cfg : Config) (t : ℚ) (s : LoopState) :
    (s.last_switch = some 1 →
      Key.S ∈ (actionBlock cfg t s).1.active_keys ∧
      Key.W ∉ (actionBlock cfg t s).1.active_keys) ∧
    (s.last_switch = some 2 →
      Key.W ∈ (actionBlock cfg t s).1.active_keys ∧
      Key.S ∉ (actionBlock cfg t s).1.active_keys) := by
  constructor
  · intro h
    rw [actionBlock_active_keys, h]
    split
    · constructor
      · rw [sprintBlock_mem_other _ _ _ _ Key.S (by decide)]
        exact (directionKeys_reverse _ _).1
      · rw [sprintBlock_mem_other _ _ _ _ Key.W (by decide)]
        exact (directionKeys_reverse _ _).2
    · exact directionKeys_reverse _ _
  · intro h
    rw [actionBlock_active_keys, h]
    split
    · constructor
      · rw [sprintBlock_mem_other _ _ _ _ Key.W (by decide)]
        exact (directionKeys_forward _ _).1
      · rw [sprintBlock_mem_other _ _ _ _ Key.S (by decide)]
        exact (directionKeys_forward _ _).2
    · exact directionKeys_forward _ _

/-- Witness for `c9_direction_no_smoothing`: an action pass with
`last_switch = 1` on a state holding W flips the held key to S. -/
theorem c9_direction_no_smoothing_witness :
    Key.S ∈ (actionBlock defaultConfig 1
      { initState false 0 with
        last_switch := some 1, active_keys := {Key.W} }).1.active_keys ∧
    Key.W ∉ (actionBlock defaultConfig 1
      { initState false 0 with
        last_switch := some 1, active_keys := {Key.W} }).1.active_keys :=
  (c9_direction_no_smoothing defaultConfig 1
    { initState false 0 with last_switch := some 1, active_keys := {Key.W} }).1 rfl

/-- C10: the interval-aggregate query is a pure read: for every window
size and current time it returns the interval history unchanged (the
Python body appends only to a slice copy), and it returns 0 when the
history is empty. -/
theorem c10_aggregate_pure (max_len : ℕ) (current_time : ℚ) (h : List ℚ) :
    (get_interval_avg_sprint max_len current_time h).1 = h ∧
    (get_interval_avg_sprint max_len current_time []).2 = 0 := by
  constructor
  · unfold get_interval_avg_sprint
    split
    · rfl
    · rfl
  · rfl
